import Mathlib

/-!
Verification of the query-to-table pipeline of `api_collector.py`
(Data_collector_backup).  Strings are modelled as `List Char`; the
module-level constants and the functions `build_url`, `sanitize_filename`,
`clean_string`, `clean_dataframe`, `fetch_data` and `save_data` are embedded
below; `build_url`'s percent-encoding is modelled at the byte level
(Python's `urllib.parse.quote` operates on the UTF-8 bytes).
-/

namespace Collector

/-- Module-level constant `MAX_RETRIES = 0` of `api_collector.py`. -/
def MAX_RETRIES : Nat := 0

/-- Module-level constant `REQUEST_DELAY = 15`. -/
def REQUEST_DELAY : Nat := 15

/-- Module-level constant `RETRY_DELAY = 10`. -/
def RETRY_DELAY : Nat := 10

/-! ## Filename sanitization (`sanitize_filename`, line 126-128) -/

/-- Characters matched by the character class in
`re.sub(r'[\\/*?:"<>|]', "_", name)`. -/
def forbiddenChar (c : Char) : Bool :=
  c = '\\' || c = '/' || c = '*' || c = '?' || c = ':' || c = '"' ||
  c = '<' || c = '>' || c = '|'

/-- `sanitize_filename(name)`: `re.sub` over a single-character class
replaces each matched character, one for one, with an underscore. -/
def sanitize_filename (name : List Char) : List Char :=
  name.map (fun c => if forbiddenChar c then '_' else c)

/-! ## String cleaning (`clean_string`, lines 130-137) -/

/-- Whitespace as matched by Python's `\s` (and stripped by `str.strip`),
restricted to the Latin-1 range: space, tab, LF, CR, VT, FF, plus
FS, GS, RS, US, NEL and NBSP. -/
def isPySpace (c : Char) : Bool :=
  c = ' ' || c = '\t' || c = '\n' || c = '\r' ||
  c = '\x0b' || c = '\x0c' || c = '\x1c' || c = '\x1d' ||
  c = '\x1e' || c = '\x1f' || c = '\x85' || c = '\xa0'

/-- `value.replace('\r\n', ' ')`: every (left-to-right, non-overlapping)
occurrence of the two-character sequence CR LF becomes one space. -/
def replacePairCRLF : List Char → List Char
  | [] => []
  | c :: rest =>
    if c = '\r' then
      match rest with
      | d :: rest2 =>
        if d = '\n' then ' ' :: replacePairCRLF rest2
        else '\r' :: replacePairCRLF (d :: rest2)
      | [] => ['\r']
    else c :: replacePairCRLF rest

/-- `.replace('\n', ' ')` on the result. -/
def replaceLF (l : List Char) : List Char :=
  l.map (fun c => if c = '\n' then ' ' else c)

/-- `.replace('\r', ' ')` on the result. -/
def replaceCR (l : List Char) : List Char :=
  l.map (fun c => if c = '\r' then ' ' else c)

/-- The three chained `replace` calls of `clean_string`. -/
def replaceNewlines (l : List Char) : List Char :=
  replaceCR (replaceLF (replacePairCRLF l))

/-- `re.sub(r'\s+', ' ', value)`: every maximal run of whitespace becomes a
single space (emitted at the end of the run). -/
def collapseWS : List Char → List Char
  | [] => []
  | [c] => if isPySpace c then [' '] else [c]
  | c :: d :: rest =>
    if isPySpace c then
      if isPySpace d then collapseWS (d :: rest)
      else ' ' :: collapseWS (d :: rest)
    else c :: collapseWS (d :: rest)

/-- Drop a trailing run of whitespace (the right half of `str.strip`). -/
def dropTrailingWS : List Char → List Char
  | [] => []
  | c :: rest =>
    match dropTrailingWS rest with
    | [] => if isPySpace c then [] else [c]
    | r => c :: r

/-- `.strip()`: drop leading and trailing whitespace. -/
def stripWS (l : List Char) : List Char :=
  dropTrailingWS (l.dropWhile isPySpace)

/-- `clean_string` on a Python `str` value: the three newline replacements,
the whitespace collapse, then `strip`. -/
def clean_string (s : List Char) : List Char :=
  stripWS (collapseWS (replaceNewlines s))

/-! ## Parsed JSON bodies and pandas tables -/

/-- A parsed JSON value (`response.json()`). -/
inductive Json where
  | null : Json
  | jbool : Bool → Json
  | jnum : Int → Json
  | jstr : List Char → Json
  | jarr : List Json → Json
  | jobj : List (String × Json) → Json

/-- Python truthiness of a parsed JSON value (`if not data`): `None`, `False`,
`0`, `""`, `[]` and `{}` are falsy, everything else truthy. -/
def truthy : Json → Bool
  | .null => false
  | .jbool b => b
  | .jnum n => n != 0
  | .jstr s => !s.isEmpty
  | .jarr items => !items.isEmpty
  | .jobj fields => !fields.isEmpty

/-- `data.get(k)` / `k in data` for a mapping; `none` when the value is not a
mapping (mirrors the `isinstance(data, dict) and ...` guards). -/
def dictGet (j : Json) (k : String) : Option Json :=
  match j with
  | .jobj fields => fields.lookup k
  | _ => none

/-- Truthiness of `data.get(k)` (`None` when the key is absent is falsy). -/
def truthyOpt : Option Json → Bool
  | none => false
  | some v => truthy v

/-- One cell of a pandas DataFrame: a parsed JSON value, or NaN for a field
missing from that record. -/
inductive Cell where
  | val : Json → Cell
  | nan : Cell

/-- A DataFrame: its row count and its columns in order (each column name with
its cells, one per row). -/
structure Table where
  nrows : Nat
  cols : List (String × List Cell)

/-- Keys of all records in order of appearance. -/
def allKeys : List (List (String × Json)) → List String
  | [] => []
  | r :: rest => r.map Prod.fst ++ allKeys rest

/-- Keep the first occurrence of each name, in first-seen order (pandas column
order for `DataFrame(list_of_dicts)`). -/
def dedupFirst : List String → List String
  | [] => []
  | c :: rest => c :: (dedupFirst rest).filter (fun x => x ≠ c)

/-- The cell of record `r` in column `c`: the value when the record has the
field, NaN otherwise. -/
def lookupCell (r : List (String × Json)) (c : String) : Cell :=
  match r.lookup c with
  | some v => .val v
  | none => .nan

/-- `pd.DataFrame(records)` for a list of records: one row per record, one
column per observed field across all records, missing fields NaN. -/
def mkTable (recs : List (List (String × Json))) : Table :=
  ⟨recs.length, (dedupFirst (allKeys recs)).map (fun c => (c, recs.map (fun r => lookupCell r c)))⟩

/-- The items of a JSON array when each is an object (a record list). -/
def rowsOf : List Json → Option (List (List (String × Json)))
  | [] => some []
  | .jobj fields :: rest => (rowsOf rest).map (fun rs => fields :: rs)
  | _ => none

/-- `pd.DataFrame(message_data)`: translated for the list-of-records payload
the API returns; any other payload shape is mapped to `none`, standing for the
constructor error that the `except ValueError` clause turns into `None`. -/
def dataFrameOf : Json → Option Table
  | .jarr items => (rowsOf items).map mkTable
  | _ => none

/-- Is the cell a Python `str`? A pandas column containing a `str` has dtype
`object`, the condition `clean_dataframe` tests before cleaning a column. -/
def isStrCell : Cell → Bool
  | .val (.jstr _) => true
  | _ => false

/-- `clean_string` applied to one cell: only `str` values change. -/
def cleanCell : Cell → Cell
  | .val (.jstr s) => .val (.jstr (clean_string s))
  | c => c

/-- `clean_dataframe(df)` (lines 139-144): apply `clean_string` elementwise to
every `object`-dtype column. -/
def clean_dataframe (df : Table) : Table :=
  ⟨df.nrows, df.cols.map (fun col =>
    (col.1, if col.2.any isStrCell then col.2.map cleanCell else col.2))⟩

/-- `df["metadata_fecha_consulta"] = colombia_time.strftime(...)` (line 179):
append the provenance column, the same timestamp string in every row. -/
def addTimestamp (df : Table) (now : List Char) : Table :=
  ⟨df.nrows, df.cols ++ [("metadata_fecha_consulta", List.replicate df.nrows (Cell.val (.jstr now)))]⟩

/-! ## `fetch_data` (lines 146-194) -/

/-- Outcome of one `requests.get` attempt, as seen by `fetch_data`:
a `requests.exceptions.RequestException` (connection error, timeout, or
`raise_for_status` on a bad status), a `ValueError` from `response.json()`,
or a 2xx response with a parsed JSON body. -/
inductive AttemptOutcome where
  | transportError : AttemptOutcome
  | invalidJson : AttemptOutcome
  | ok : Json → AttemptOutcome

/-- What one call of `fetch_data` did: its returned value, how many
`time.sleep(RETRY_DELAY)` retry sleeps ran, and how many `requests.get`
attempts were issued. -/
structure FetchResult where
  result : Option Table
  sleeps : Nat
  attempts : Nat

/-- The body of the `try` after a successful parse (lines 155-180): empty body
and error envelope return `None`; a mapping with a non-empty `message` list is
turned into a DataFrame, cleaned, and stamped with the timestamp column; any
body without a `message` field (a top-level list included) returns `None`. -/
def process_body (data : Json) (now : List Char) : Option Table :=
  if truthy data = false then none
  else if truthyOpt (dictGet data "error") then none
  else
    match dictGet data "message" with
    | some message_data =>
      if truthy message_data = false then none
      else
        match dataFrameOf message_data with
        | some df => some (addTimestamp (clean_dataframe df) now)
        | none => none
    | none => none

/-- The retry loop `for attempt in range(MAX_RETRIES + 1)` of `fetch_data`,
with `fuel` the number of attempts still allowed (so `fuel = 0` inside a
transport failure is `attempt == MAX_RETRIES`, the no-retries-left branch).
A parsed 2xx response and a `ValueError` both leave the loop at once; a
transport failure sleeps `RETRY_DELAY` and retries while attempts remain. -/
def fetch_go (transport : Nat → AttemptOutcome) (now : List Char) : Nat → Nat → FetchResult
  | _, 0 => ⟨none, 0, 0⟩
  | attempt, fuel + 1 =>
    match transport attempt with
    | .ok body => ⟨process_body body now, 0, 1⟩
    | .invalidJson => ⟨none, 0, 1⟩
    | .transportError =>
      if fuel = 0 then ⟨none, 0, 1⟩
      else
        let r := fetch_go transport now (attempt + 1) fuel
        ⟨r.result, r.sleeps + 1, r.attempts + 1⟩

/-- `fetch_data(url, name)`, parameterized by the configured retry count (the
source reads the module constant `MAX_RETRIES`) and by the transport's outcome
per attempt index. -/
def fetch_data (maxRetries : Nat) (transport : Nat → AttemptOutcome) (now : List Char) : FetchResult :=
  fetch_go transport now 0 (maxRetries + 1)

/-! ## `build_url` (lines 118-124), at the byte level

`urllib.parse.quote` percent-encodes the UTF-8 bytes of the value, leaving
letters, digits, `_.-~` and (its default `safe`) `/` untouched, with uppercase
hex digits.  Keys are not encoded.  The decoder below is the re-splitting
procedure of the spec: split the query on `&`, each pair on its first `=`,
and percent-decode each component. -/

/-- Bytes `urllib.parse.quote` leaves as-is: ALWAYS_SAFE plus the default
`safe='/'`. -/
def isSafeByte (b : Nat) : Bool :=
  (65 ≤ b && b ≤ 90) || (97 ≤ b && b ≤ 122) || (48 ≤ b && b ≤ 57) ||
  b = 95 || b = 46 || b = 45 || b = 126 || b = 47

/-- Uppercase hex digit of a nibble. -/
def hexDigit (n : Nat) : Nat := if n < 10 then 48 + n else 55 + n

/-- Percent-encoding of one byte. -/
def quoteByte (b : Nat) : List Nat :=
  if isSafeByte b then [b] else [37, hexDigit (b / 16), hexDigit (b % 16)]

/-- `quote(str(value))` over the value's bytes. -/
def quoteBytes : List Nat → List Nat
  | [] => []
  | b :: rest => quoteByte b ++ quoteBytes rest

/-- `f"{key}={encoded_value}"` (61 is `=`). -/
def param_part (k v : List Nat) : List Nat := k ++ 61 :: quoteBytes v

/-- `'&'.join(param_parts)` (38 is `&`). -/
def joinAmp : List (List Nat) → List Nat
  | [] => []
  | [p] => p
  | p :: q :: ps => p ++ 38 :: joinAmp (q :: ps)

/-- The query string `'&'.join(f"{key}={quote(str(value))}" for ...)`. -/
def query_string (params : List (List Nat × List Nat)) : List Nat :=
  joinAmp (params.map (fun kv => param_part kv.1 kv.2))

/-- `f"{BASE_URL}{endpoint}?{'&'.join(param_parts)}"` (63 is `?`). -/
def build_url (base endpoint : List Nat) (params : List (List Nat × List Nat)) : List Nat :=
  base ++ endpoint ++ 63 :: query_string params

/-- Is the byte an ASCII hex digit? -/
def isHexDigitByte (b : Nat) : Bool :=
  (48 ≤ b && b ≤ 57) || (65 ≤ b && b ≤ 70) || (97 ≤ b && b ≤ 102)

/-- Value of an ASCII hex digit. -/
def hexVal (b : Nat) : Nat :=
  if b ≤ 57 then b - 48 else if b ≤ 70 then b - 55 else b - 87

/-- Percent-decoding: each `%XX` with two hex digits becomes one byte;
anything else passes through. -/
def unquoteBytes : List Nat → List Nat
  | [] => []
  | b :: rest =>
    if b = 37 then
      match rest with
      | h :: l :: rest2 =>
        if isHexDigitByte h && isHexDigitByte l then
          (hexVal h * 16 + hexVal l) :: unquoteBytes rest2
        else 37 :: unquoteBytes (h :: l :: rest2)
      | [h] => 37 :: unquoteBytes [h]
      | [] => [37]
    else b :: unquoteBytes rest

/-- Split on `&` (Python `s.split('&')`: the empty string yields one empty
part). -/
def splitAmp : List Nat → List (List Nat)
  | [] => [[]]
  | b :: rest =>
    if b = 38 then [] :: splitAmp rest
    else
      match splitAmp rest with
      | [] => [[b]]
      | p :: ps => (b :: p) :: ps

/-- Split a `key=value` pair on its first `=`. -/
def splitEq (part : List Nat) : List Nat × List Nat :=
  (part.takeWhile (fun b => b != 61), (part.dropWhile (fun b => b != 61)).drop 1)

/-- Decode one pair: split on the first `=` and percent-decode both halves. -/
def decodePair (part : List Nat) : List Nat × List Nat :=
  (unquoteBytes (splitEq part).1, unquoteBytes (splitEq part).2)

/-- Decode a whole query string back into its key/value pairs. -/
def decodeQuery (q : List Nat) : List (List Nat × List Nat) :=
  if q = [] then [] else (splitAmp q).map decodePair

/-! ## Configuration and driver (lines 9-16, 196-233) -/

/-- `os.getenv("API_TOKEN")` (line 10): `None` when unset, no validation. -/
def TOKEN (env : String → Option String) : Option String := env "API_TOKEN"

/-- `os.getenv("API_BASE_URL")` (line 11): `None` when unset, no validation. -/
def BASE_URL (env : String → Option String) : Option String := env "API_BASE_URL"

/-- `HEADERS = {"token": TOKEN}` (line 12): built unconditionally, carrying
`None` when the variable is missing. -/
def HEADERS (env : String → Option String) : List (String × Option String) :=
  [("token", TOKEN env)]

/-- How a Python f-string renders an optional value: `None` becomes the text
`"None"`. -/
def optStr : Option String → String
  | some s => s
  | none => "None"

/-- The `ENDPOINTS` catalog (lines 19-30). -/
def ENDPOINTS : List (String × String) :=
  [("Transacciones de materiales", "System.MaterialTransactions.List.View1"),
   ("Conciliacion de inventario", "Ardisa.InventoryReconciliation.List.View2"),
   ("Inventario de materiales", "System.InventoryItems.List.View4"),
   ("Entregas de salida", "System.OutboundDeliveries.List.View1"),
   ("Salida de mercancia", "System.GoodsIssues.List.View1"),
   ("Entradas de mercancia", "System.GoodsRecipts.List.View1"),
   ("Envios entrantes", "Ardisa.InboundDeliveries.List.View1"),
   ("Documentos OV/FR/ST", "Ardisa.SalesOrders.List.View1"),
   ("Tareas", "System.Tasks.List.View3"),
   ("Inventario Ciclico", "System.StockCountingItemVars.List.View1")]

/-- One iteration of `main`'s loop for a query: the URL is built by f-string
concatenation from the unvalidated `BASE_URL` (a missing variable renders as
the text `None`), and `fetch_data` is called unconditionally — there is no
environment check anywhere on this path.  `queryTail` stands for the encoded
parameter string, whose construction (`build_url`) does not touch `env`. -/
def run_query (env : String → Option String) (endpoint : String) (queryTail : String)
    (transport : Nat → AttemptOutcome) (now : List Char) : String × FetchResult :=
  (optStr (BASE_URL env) ++ endpoint ++ "?" ++ queryTail, fetch_data MAX_RETRIES transport now)

/-- The output filename of `save_data` (lines 196-212):
`f"{sanitize_filename(query_name)}_{timestamp}.csv"`. -/
def save_data_filename (query_name timestamp : List Char) : List Char :=
  sanitize_filename query_name ++ '_' :: (timestamp ++ ['.', 'c', 's', 'v'])

/-- No two adjacent whitespace characters (the shape `re.sub(r'\s+', ' ')`
leaves behind). -/
def noTwoWS : List Char → Bool
  | [] => true
  | [_] => true
  | c :: d :: rest => (!(isPySpace c && isPySpace d)) && noTwoWS (d :: rest)

/-- A transport that fails on its first two attempts and succeeds on the third
with a one-record `message` envelope. -/
def failTwiceTransport : Nat → AttemptOutcome := fun n =>
  if n < 2 then .transportError
  else .ok (.jobj [("message", .jarr [.jobj [("a", .jnum 1)]])])

/-! ## Theorems -/

/-- Replacing a forbidden character by an underscore leaves no forbidden
character behind. -/
theorem forbiddenChar_after (c : Char) :
    forbiddenChar (if forbiddenChar c then '_' else c) = false := by
  cases hb : forbiddenChar c with
  | false => simp [hb]
  | true => simp only [hb, if_true]; decide

/-- C10: sanitize_filename preserves the length (each forbidden character is
replaced one-for-one by an underscore), its output contains no forbidden
character, and it is idempotent. -/
theorem sanitize_filename_properties (s : List Char) :
    (sanitize_filename s).length = s.length ∧
    (sanitize_filename s).all (fun c => !forbiddenChar c) = true ∧
    sanitize_filename (sanitize_filename s) = sanitize_filename s := by
  refine ⟨List.length_map _ _, ?_, ?_⟩
  · induction s with
    | nil => rfl
    | cons c rest ih =>
      simp only [sanitize_filename, List.map_cons, List.all_cons, Bool.and_eq_true] at ih ⊢
      exact ⟨by simp [forbiddenChar_after c], ih⟩
  · induction s with
    | nil => rfl
    | cons c rest ih =>
      simp only [sanitize_filename, List.map_cons, List.cons.injEq] at ih ⊢
      exact ⟨by simp [forbiddenChar_after c], ih⟩

/-- C9: the output filename is the query name with each of the characters
in the forbidden class replaced by an underscore, followed by the run
timestamp and `.csv`; for the query "Documentos OV/FR/ST" the filename
starts with "Documentos OV_FR_ST" and contains no raw slash. -/
theorem save_data_filename_sanitized (ts : List Char)
    (h : ts.all (fun c => c ≠ '/') = true) :
    sanitize_filename ("Documentos OV/FR/ST".toList) = "Documentos OV_FR_ST".toList ∧
    (∃ suffix, save_data_filename ("Documentos OV/FR/ST".toList) ts =
      "Documentos OV_FR_ST".toList ++ suffix) ∧
    (save_data_filename ("Documentos OV/FR/ST".toList) ts).all (fun c => c ≠ '/') = true := by
  refine ⟨by decide, ⟨'_' :: (ts ++ ['.', 'c', 's', 'v']), ?_⟩, ?_⟩
  · show sanitize_filename _ ++ _ = _
    rw [show sanitize_filename ("Documentos OV/FR/ST".toList) = "Documentos OV_FR_ST".toList from by decide]
  · simp only [save_data_filename, List.all_append, List.all_cons, Bool.and_eq_true]
    refine ⟨by decide, ⟨by decide, h, by decide⟩⟩

/-- C9 witness at a concrete timestamp. -/
theorem save_data_filename_sanitized_witness :
    ("20260101_000000".toList.all (fun c => c ≠ '/') = true) ∧
    (save_data_filename ("Documentos OV/FR/ST".toList) "20260101_000000".toList).all
      (fun c => c ≠ '/') = true :=
  ⟨by decide, (save_data_filename_sanitized "20260101_000000".toList (by decide)).2.2⟩

/-- C3 (code bug evidence): with both required environment variables absent,
the module still builds `HEADERS` carrying a `None` token, `main` renders the
missing base URL as the literal text "None" inside the request URL, and
`fetch_data` still issues a request attempt — nothing on this path aborts
with a configuration error before the network call. -/
theorem missing_env_still_requests :
    TOKEN (fun _ => none) = none ∧
    BASE_URL (fun _ => none) = none ∧
    HEADERS (fun _ => none) = [("token", none)] ∧
    (run_query (fun _ => none) "System.MaterialTransactions.List.View1" "take=10000"
      (fun _ => .transportError) []).1
      = "NoneSystem.MaterialTransactions.List.View1?take=10000" ∧
    (run_query (fun _ => none) "System.MaterialTransactions.List.View1" "take=10000"
      (fun _ => .transportError) []).2.attempts = 1 :=
  ⟨rfl, rfl, rfl, rfl, rfl⟩

/-- C5: a parsed body that is a mapping with a non-empty `error` field makes
fetch_data return NoResult at once — one attempt, no retry sleep — whatever
the configured retry count. -/
theorem fetch_data_error_envelope_no_retry (maxRetries : Nat) (now : List Char) :
    fetch_data maxRetries
      (fun _ => .ok (.jobj [("error", .jstr "bad request".toList)])) now
      = ⟨none, 0, 1⟩ := rfl

/-- C6: a body that fails to parse as JSON (the `ValueError` branch) makes
fetch_data return NoResult at once on that attempt — one attempt, no retry
sleep — regardless of the configured MAX_RETRIES. -/
theorem fetch_data_invalid_json_no_retry (maxRetries : Nat) (now : List Char) :
    fetch_data maxRetries (fun _ => .invalidJson) now = ⟨none, 0, 1⟩ := rfl

/-- C4: a `{"message": []}` body yields NoResult; a `{"message": [{"a": 1}]}`
body yields a one-row table whose columns are `a` followed by the
`metadata_fecha_consulta` timestamp column. -/
theorem fetch_data_message_examples (maxRetries : Nat) (now : List Char) :
    fetch_data maxRetries (fun _ => .ok (.jobj [("message", .jarr [])])) now
      = ⟨none, 0, 1⟩ ∧
    fetch_data maxRetries
      (fun _ => .ok (.jobj [("message", .jarr [.jobj [("a", .jnum 1)]])])) now
      = ⟨some ⟨1, [("a", [.val (.jnum 1)]),
                   ("metadata_fecha_consulta", [.val (.jstr now)])]⟩, 0, 1⟩ :=
  ⟨rfl, rfl⟩

/-- The loop of fetch_data issues at most `fuel` request attempts. -/
theorem fetch_go_attempts_le (transport : Nat → AttemptOutcome) (now : List Char) :
    ∀ (fuel attempt : Nat), (fetch_go transport now attempt fuel).attempts ≤ fuel := by
  intro fuel
  induction fuel with
  | zero => intro attempt; exact Nat.le_refl 0
  | succ f ih =>
    intro attempt
    simp only [fetch_go]
    cases transport attempt with
    | ok body => exact Nat.succ_le_succ (Nat.zero_le f)
    | invalidJson => exact Nat.succ_le_succ (Nat.zero_le f)
    | transportError =>
      by_cases hf : f = 0
      · simp [hf]
      · simp only [hf, if_false]
        exact Nat.succ_le_succ (ih (attempt + 1))

/-- C7: fetch_data performs at most `1 + MAX_RETRIES` attempts; with
MAX_RETRIES = 2 and a transport failing twice then succeeding, it returns the
populated one-row table and the retry sleep runs exactly twice. -/
theorem fetch_data_retry_policy :
    (∀ (maxRetries : Nat) (transport : Nat → AttemptOutcome) (now : List Char),
      (fetch_data maxRetries transport now).attempts ≤ maxRetries + 1) ∧
    (∀ now : List Char,
      (fetch_data 2 failTwiceTransport now).result
        = some ⟨1, [("a", [.val (.jnum 1)]),
                    ("metadata_fecha_consulta", [.val (.jstr now)])]⟩ ∧
      (fetch_data 2 failTwiceTransport now).sleeps = 2) :=
  ⟨fun maxRetries transport now => fetch_go_attempts_le transport now (maxRetries + 1) 0,
   fun _ => ⟨rfl, rfl⟩⟩

/-- `rowsOf` recovers a list of records wrapped as JSON objects. -/
theorem rowsOf_map_jobj (recs : List (List (String × Json))) :
    rowsOf (recs.map Json.jobj) = some recs := by
  induction recs with
  | nil => rfl
  | cons r rest ih => simp [rowsOf, ih]

/-- C1 (counterexample): a successful fetch whose parsed body is the non-empty
top-level list `[{"a": 1}]` — neither empty nor an error envelope — still
returns NoResult: fetch_data extracts no record collection from it. -/
theorem fetch_data_flat_list_counterexample :
    truthy (.jarr [.jobj [("a", .jnum 1)]]) = true ∧
    truthyOpt (dictGet (.jarr [.jobj [("a", .jnum 1)]]) "error") = false ∧
    (fetch_data 0 (fun _ => .ok (.jarr [.jobj [("a", .jnum 1)]])) []).result = none :=
  ⟨rfl, rfl, rfl⟩

/-- C1 (amended): only the `message`-envelope variant reaches normalization.
A mapping whose `message` field holds a non-empty record list yields a table;
a top-level JSON list — the other envelope variant of the spec — always yields
NoResult. -/
theorem fetch_data_envelope_extraction
    (now : List Char) (recs : List (List (String × Json))) (h : recs ≠ []) :
    (fetch_data 0
      (fun _ => .ok (.jobj [("message", .jarr (recs.map .jobj))])) now).result.isSome = true ∧
    ∀ items : List Json,
      (fetch_data 0 (fun _ => .ok (.jarr items)) now).result = none := by
  constructor
  · show (process_body (.jobj [("message", .jarr (recs.map .jobj))]) now).isSome = true
    have herr : truthyOpt (dictGet (.jobj [("message", .jarr (recs.map .jobj))]) "error")
        = false := rfl
    have hmsg : dictGet (.jobj [("message", .jarr (recs.map .jobj))]) "message"
        = some (.jarr (recs.map .jobj)) := rfl
    have htr : truthy (Json.jarr (recs.map .jobj)) = true := by
      cases recs with
      | nil => exact absurd rfl h
      | cons r rest => rfl
    simp only [process_body, herr, hmsg, htr, truthy, dataFrameOf, rowsOf_map_jobj]
    simp [h]
  · intro items
    show process_body (.jarr items) now = none
    cases items with
    | nil => rfl
    | cons j rest => simp [process_body, dictGet, truthy]

/-- C1 witness: the amended statement at the one-record envelope. -/
theorem fetch_data_envelope_extraction_witness :
    (fetch_data 0
      (fun _ => .ok (.jobj [("message",
        .jarr ([[("a", Json.jnum 1)]].map .jobj))])) []).result.isSome = true :=
  (fetch_data_envelope_extraction [] [[("a", Json.jnum 1)]] (List.cons_ne_nil _ _)).1

/-- Every whitespace character surviving the collapse is a plain space. -/
theorem collapseWS_ws_space : ∀ (l : List Char), ∀ c ∈ collapseWS l, isPySpace c = true → c = ' '
  | [] => by simp [collapseWS]
  | [a] => by
    cases ha : isPySpace a with
    | true => simp [collapseWS, ha]
    | false =>
      intro c hc hcs
      simp [collapseWS, ha] at hc
      rw [hc] at hcs
      exact absurd hcs (by simp [ha])
  | a :: b :: rest => by
    have ih := collapseWS_ws_space (b :: rest)
    intro c hc hcs
    cases ha : isPySpace a with
    | true =>
      cases hb : isPySpace b with
      | true =>
        rw [show collapseWS (a :: b :: rest) = collapseWS (b :: rest) from by
          simp [collapseWS, ha, hb]] at hc
        exact ih c hc hcs
      | false =>
        rw [show collapseWS (a :: b :: rest) = ' ' :: collapseWS (b :: rest) from by
          simp [collapseWS, ha, hb]] at hc
        rcases List.mem_cons.mp hc with rfl | hc
        · rfl
        · exact ih c hc hcs
    | false =>
      rw [show collapseWS (a :: b :: rest) = a :: collapseWS (b :: rest) from by
        simp [collapseWS, ha]] at hc
      rcases List.mem_cons.mp hc with rfl | hc
      · exact absurd hcs (by simp [ha])
      · exact ih c hc hcs

/-- Collapsing a list with a non-whitespace head keeps that head. -/
theorem collapseWS_cons_nonspace (d : Char) (rest : List Char) (hd : isPySpace d = false) :
    collapseWS (d :: rest) = d :: collapseWS rest := by
  cases rest with
  | nil => simp [collapseWS, hd]
  | cons e r => simp [collapseWS, hd]

/-- Collapsing a list with a whitespace head yields a space-headed list. -/
theorem collapseWS_head_space : ∀ (rest : List Char) (d : Char), isPySpace d = true →
    ∃ t, collapseWS (d :: rest) = ' ' :: t
  | [], d, hd => ⟨[], by simp [collapseWS, hd]⟩
  | e :: r, d, hd => by
    cases he : isPySpace e with
    | true =>
      obtain ⟨t, ht⟩ := collapseWS_head_space r e he
      refine ⟨t, ?_⟩
      rw [show collapseWS (d :: e :: r) = collapseWS (e :: r) from by
        simp [collapseWS, hd, he]]
      exact ht
    | false =>
      exact ⟨collapseWS (e :: r), by simp [collapseWS, hd, he]⟩

/-- The collapse leaves no two adjacent whitespace characters. -/
theorem collapseWS_noTwoWS : ∀ (l : List Char), noTwoWS (collapseWS l) = true
  | [] => rfl
  | [a] => by cases ha : isPySpace a <;> simp [collapseWS, ha, noTwoWS]
  | a :: b :: rest => by
    have ih := collapseWS_noTwoWS (b :: rest)
    cases ha : isPySpace a with
    | true =>
      cases hb : isPySpace b with
      | true =>
        rw [show collapseWS (a :: b :: rest) = collapseWS (b :: rest) from by
          simp [collapseWS, ha, hb]]
        exact ih
      | false =>
        rw [show collapseWS (a :: b :: rest) = ' ' :: collapseWS (b :: rest) from by
          simp [collapseWS, ha, hb]]
        rw [collapseWS_cons_nonspace b rest hb] at ih ⊢
        simp [noTwoWS, hb]
        exact ih
    | false =>
      rw [collapseWS_cons_nonspace a (b :: rest) ha]
      cases hb : isPySpace b with
      | true =>
        obtain ⟨t, ht⟩ := collapseWS_head_space rest b hb
        rw [ht] at ih ⊢
        simp [noTwoWS, ha]
        exact ih
      | false =>
        rw [collapseWS_cons_nonspace b rest hb] at ih ⊢
        simp [noTwoWS, ha]
        exact ih

/-- The collapse fixes lists already in collapsed shape: whitespace only as
single plain spaces. -/
theorem collapseWS_fixed : ∀ (l : List Char),
    (∀ c ∈ l, isPySpace c = true → c = ' ') → noTwoWS l = true → collapseWS l = l
  | [], _, _ => rfl
  | [a], hsp, _ => by
    cases ha : isPySpace a with
    | true =>
      have haeq : a = ' ' := hsp a (by simp) ha
      simp [collapseWS, ha, haeq]
    | false => simp [collapseWS, ha]
  | a :: b :: rest, hsp, h2 => by
    have h2p : (!(isPySpace a && isPySpace b)) = true ∧ noTwoWS (b :: rest) = true :=
      (Bool.and_eq_true _ _).mp (by
        rw [show noTwoWS (a :: b :: rest)
            = ((!(isPySpace a && isPySpace b)) && noTwoWS (b :: rest)) from rfl] at h2
        exact h2)
    have ih := collapseWS_fixed (b :: rest)
      (fun c hc => hsp c (List.mem_cons_of_mem a hc)) h2p.2
    cases ha : isPySpace a with
    | true =>
      have haeq : a = ' ' := hsp a (by simp) ha
      have hb : isPySpace b = false := by
        cases hbb : isPySpace b with
        | false => rfl
        | true => rw [ha, hbb] at h2p; simp at h2p
      simp [collapseWS, ha, hb, ih, haeq]
    | false => simp [collapseWS, ha, ih]

/-- `noTwoWS` passes to the tail. -/
theorem noTwoWS_tail (a : Char) (l : List Char) (h : noTwoWS (a :: l) = true) :
    noTwoWS l = true := by
  cases l with
  | nil => rfl
  | cons b rest =>
    rw [show noTwoWS (a :: b :: rest)
        = ((!(isPySpace a && isPySpace b)) && noTwoWS (b :: rest)) from rfl] at h
    exact ((Bool.and_eq_true _ _).mp h).2

/-- `noTwoWS` survives dropping a left segment with `dropWhile`. -/
theorem noTwoWS_dropWhile (p : Char → Bool) :
    ∀ (l : List Char), noTwoWS l = true → noTwoWS (l.dropWhile p) = true
  | [], _ => rfl
  | a :: rest, h => by
    rw [List.dropWhile_cons]
    cases hp : p a with
    | true => simp only [if_true]; exact noTwoWS_dropWhile p rest (noTwoWS_tail a rest h)
    | false => simpa using h

/-- Whatever `dropTrailingWS` returns is made of characters of its input. -/
theorem mem_dropTrailingWS : ∀ (l : List Char) (c : Char), c ∈ dropTrailingWS l → c ∈ l
  | [], c, hc => by simp [dropTrailingWS] at hc
  | a :: rest, c, hc => by
    have ih := mem_dropTrailingWS rest c
    rw [dropTrailingWS] at hc
    cases hr : dropTrailingWS rest with
    | nil =>
      rw [hr] at hc
      cases hs : isPySpace a with
      | true => simp [hs] at hc
      | false =>
        simp [hs] at hc
        simp [hc]
    | cons x xs =>
      rw [hr] at hc
      rcases List.mem_cons.mp hc with rfl | hc2
      · simp
      · exact List.mem_cons_of_mem a (ih (hr ▸ hc2))

/-- `dropTrailingWS` only removes characters from the end: a `cons` output
means a `cons` input with the same head. -/
theorem dropTrailingWS_eq_cons : ∀ (l : List Char) (x : Char) (xs : List Char),
    dropTrailingWS l = x :: xs → ∃ t, l = x :: t
  | [], x, xs, h => by simp [dropTrailingWS] at h
  | a :: rest, x, xs, h => by
    rw [dropTrailingWS] at h
    cases hr : dropTrailingWS rest with
    | nil =>
      rw [hr] at h
      cases hs : isPySpace a with
      | true => simp [hs] at h
      | false =>
        simp [hs] at h
        exact ⟨rest, by rw [h.1]⟩
    | cons y ys =>
      rw [hr] at h
      exact ⟨rest, by rw [(List.cons.injEq _ _ _ _).mp h |>.1]⟩

/-- `noTwoWS` survives dropping trailing whitespace. -/
theorem noTwoWS_dropTrailingWS : ∀ (l : List Char),
    noTwoWS l = true → noTwoWS (dropTrailingWS l) = true
  | [], _ => rfl
  | a :: rest, h => by
    have ih := noTwoWS_dropTrailingWS rest (noTwoWS_tail a rest h)
    rw [dropTrailingWS]
    cases hr : dropTrailingWS rest with
    | nil =>
      cases hs : isPySpace a with
      | true => rfl
      | false => rfl
    | cons x xs =>
      obtain ⟨t, ht⟩ := dropTrailingWS_eq_cons rest x xs hr
      have h2 : noTwoWS (a :: x :: t) = true := by rw [ht] at h; exact h
      rw [show noTwoWS (a :: x :: t)
          = ((!(isPySpace a && isPySpace x)) && noTwoWS (x :: t)) from rfl] at h2
      have hpair : (!(isPySpace a && isPySpace x)) = true := ((Bool.and_eq_true _ _).mp h2).1
      rw [hr] at ih
      rw [show noTwoWS (a :: x :: xs)
          = ((!(isPySpace a && isPySpace x)) && noTwoWS (x :: xs)) from rfl]
      exact (Bool.and_eq_true _ _).mpr ⟨hpair, ih⟩

/-- Characters of `stripWS l` are characters of `l`. -/
theorem mem_stripWS (l : List Char) (c : Char) (hc : c ∈ stripWS l) : c ∈ l :=
  (List.dropWhile_sublist isPySpace).subset (mem_dropTrailingWS _ c hc)

/-- The head of a `dropWhile` result fails the predicate. -/
theorem dropWhile_head_false (p : Char → Bool) :
    ∀ (l : List Char) (x : Char) (xs : List Char), List.dropWhile p l = x :: xs → p x = false
  | [], x, xs, h => by simp [List.dropWhile] at h
  | a :: rest, x, xs, h => by
    rw [List.dropWhile_cons] at h
    cases hp : p a with
    | true => rw [hp] at h; simp at h; exact dropWhile_head_false p rest x xs h
    | false =>
      rw [hp] at h
      simp at h
      rw [← h.1]
      exact hp

/-- Dropping trailing whitespace is idempotent. -/
theorem dropTrailingWS_idem : ∀ (l : List Char),
    dropTrailingWS (dropTrailingWS l) = dropTrailingWS l
  | [] => rfl
  | a :: rest => by
    have ih := dropTrailingWS_idem rest
    rw [dropTrailingWS]
    cases hr : dropTrailingWS rest with
    | nil =>
      cases hs : isPySpace a with
      | true => rfl
      | false => simp [dropTrailingWS, hs]
    | cons x xs =>
      have hfix : dropTrailingWS (x :: xs) = x :: xs := by rw [← hr, ih, hr]
      rw [dropTrailingWS, hfix]

/-- `strip` is idempotent. -/
theorem stripWS_idem (l : List Char) : stripWS (stripWS l) = stripWS l := by
  unfold stripWS
  have hdw : (dropTrailingWS (l.dropWhile isPySpace)).dropWhile isPySpace
      = dropTrailingWS (l.dropWhile isPySpace) := by
    cases hB : dropTrailingWS (l.dropWhile isPySpace) with
    | nil => rfl
    | cons x xs =>
      obtain ⟨t, ht⟩ := dropTrailingWS_eq_cons _ x xs hB
      have hx : isPySpace x = false := dropWhile_head_false isPySpace l x t ht
      rw [List.dropWhile_cons, hx]
      simp
  rw [hdw, dropTrailingWS_idem]

/-- A CR-free list is fixed by the CRLF pair replacement. -/
theorem replacePairCRLF_id : ∀ (l : List Char), (∀ c ∈ l, c ≠ '\r') → replacePairCRLF l = l
  | [] , _ => rfl
  | c :: rest, h => by
    have hc : ¬(c = '\r') := h c (by simp)
    rw [replacePairCRLF.eq_def]
    simp only [if_neg hc]
    exact congrArg (c :: ·) (replacePairCRLF_id rest (fun d hd => h d (List.mem_cons_of_mem c hd)))

/-- An LF-free list is fixed by the LF replacement. -/
theorem replaceLF_id (l : List Char) (h : ∀ c ∈ l, c ≠ '\n') : replaceLF l = l := by
  unfold replaceLF
  rw [show List.map (fun c => if c = '\n' then ' ' else c) l = List.map id l from
    List.map_congr_left (fun c hc => by simp [h c hc]), List.map_id]

/-- A CR-free list is fixed by the CR replacement. -/
theorem replaceCR_id (l : List Char) (h : ∀ c ∈ l, c ≠ '\r') : replaceCR l = l := by
  unfold replaceCR
  rw [show List.map (fun c => if c = '\r' then ' ' else c) l = List.map id l from
    List.map_congr_left (fun c hc => by simp [h c hc]), List.map_id]

/-- `clean_string` is idempotent. -/
theorem clean_string_idem (s : List Char) : clean_string (clean_string s) = clean_string s := by
  have hWS : ∀ c ∈ stripWS (collapseWS (replaceNewlines s)), isPySpace c = true → c = ' ' :=
    fun c hc => collapseWS_ws_space (replaceNewlines s) c (mem_stripWS _ c hc)
  have hno2 : noTwoWS (stripWS (collapseWS (replaceNewlines s))) = true := by
    unfold stripWS
    exact noTwoWS_dropTrailingWS _
      (noTwoWS_dropWhile isPySpace _ (collapseWS_noTwoWS (replaceNewlines s)))
  have hnr : ∀ c ∈ stripWS (collapseWS (replaceNewlines s)), c ≠ '\r' := by
    intro c hc hcr
    rw [hcr] at hc
    have := hWS '\r' hc (by decide)
    exact absurd this (by decide)
  have hnl : ∀ c ∈ stripWS (collapseWS (replaceNewlines s)), c ≠ '\n' := by
    intro c hc hcn
    rw [hcn] at hc
    have := hWS '\n' hc (by decide)
    exact absurd this (by decide)
  have hrepl : ∀ (r : List Char), (∀ c ∈ r, c ≠ '\r') → (∀ c ∈ r, c ≠ '\n') →
      replaceNewlines r = r := by
    intro r hr hn
    show replaceCR (replaceLF (replacePairCRLF r)) = r
    rw [replacePairCRLF_id r hr, replaceLF_id r hn, replaceCR_id r hr]
  show stripWS (collapseWS (replaceNewlines (stripWS (collapseWS (replaceNewlines s)))))
      = stripWS (collapseWS (replaceNewlines s))
  rw [hrepl _ hnr hnl]
  rw [collapseWS_fixed _ hWS hno2]
  exact stripWS_idem _

/-- Cleaning a cell does not change whether it is a `str` cell. -/
theorem isStrCell_cleanCell (c : Cell) : isStrCell (cleanCell c) = isStrCell c := by
  cases c with
  | nan => rfl
  | val j => cases j <;> rfl

/-- Cleaning a cell is idempotent. -/
theorem cleanCell_idem (c : Cell) : cleanCell (cleanCell c) = cleanCell c := by
  cases c with
  | nan => rfl
  | val j =>
    cases j with
    | jstr s => simp [cleanCell, clean_string_idem]
    | null => rfl
    | jbool b => rfl
    | jnum n => rfl
    | jarr items => rfl
    | jobj fields => rfl

/-- C8: the clean operation is idempotent: cleaning a table twice yields the
same table as cleaning it once. -/
theorem clean_dataframe_idempotent (df : Table) :
    clean_dataframe (clean_dataframe df) = clean_dataframe df := by
  cases df with
  | mk nrows cols =>
    simp only [clean_dataframe, Table.mk.injEq, true_and]
    rw [List.map_map]
    apply List.map_congr_left
    intro col _
    simp only [Function.comp_apply]
    by_cases hany : col.2.any isStrCell = true
    · have hany2 : (col.2.map cleanCell).any isStrCell = true := by
        rw [List.any_map]
        simpa only [Function.comp_def, isStrCell_cleanCell] using hany
      simp only [hany, if_true, hany2]
      rw [List.map_map]
      rw [show cleanCell ∘ cleanCell = cleanCell from by
        funext c
        exact cleanCell_idem c]
    · have hany' : col.2.any isStrCell = false := by simpa using hany
      simp [hany']

/-- `hexDigit` of a nibble is a hex-digit byte. -/
theorem hexDigit_isHex (n : Nat) (h : n < 16) : isHexDigitByte (hexDigit n) = true := by
  unfold hexDigit isHexDigitByte
  by_cases h10 : n < 10 <;>
    simp only [h10, if_true, if_false, Bool.or_eq_true, Bool.and_eq_true, decide_eq_true_eq] <;>
    omega

/-- `hexVal` inverts `hexDigit` on nibbles. -/
theorem hexVal_hexDigit (n : Nat) (h : n < 16) : hexVal (hexDigit n) = n := by
  unfold hexDigit hexVal
  by_cases h10 : n < 10
  · rw [if_pos h10, if_pos (by omega)]
    omega
  · rw [if_neg h10, if_neg (by omega), if_pos (by omega)]
    omega

/-- `hexDigit` never produces the separators `&` (38) or `=` (61). -/
theorem hexDigit_ne_sep (n : Nat) (h : n < 16) : hexDigit n ≠ 38 ∧ hexDigit n ≠ 61 := by
  unfold hexDigit
  by_cases h10 : n < 10 <;> simp only [h10, if_true, if_false] <;> omega

/-- Percent-encoding a byte never emits the separators `&` or `=`. -/
theorem quoteByte_ne_sep (b : Nat) (hb : b < 256) :
    ∀ x ∈ quoteByte b, x ≠ 38 ∧ x ≠ 61 := by
  intro x hx
  unfold quoteByte at hx
  by_cases hs : isSafeByte b = true
  · rw [if_pos hs] at hx
    simp at hx
    subst hx
    constructor
    · intro h38; rw [h38] at hs; exact absurd hs (by decide)
    · intro h61; rw [h61] at hs; exact absurd hs (by decide)
  · rw [if_neg hs] at hx
    simp at hx
    rcases hx with rfl | rfl | rfl
    · exact ⟨by decide, by decide⟩
    · exact hexDigit_ne_sep (b / 16) (by omega)
    · exact hexDigit_ne_sep (b % 16) (by omega)

/-- A percent-encoded value contains no `&` and no `=`. -/
theorem quoteBytes_ne_sep : ∀ (v : List Nat), (∀ b ∈ v, b < 256) →
    ∀ x ∈ quoteBytes v, x ≠ 38 ∧ x ≠ 61
  | [], _ => by simp [quoteBytes]
  | b :: rest, h => by
    intro x hx
    rw [show quoteBytes (b :: rest) = quoteByte b ++ quoteBytes rest from rfl] at hx
    rcases List.mem_append.mp hx with hx | hx
    · exact quoteByte_ne_sep b (h b (by simp)) x hx
    · exact quoteBytes_ne_sep rest (fun y hy => h y (List.mem_cons_of_mem b hy)) x hx

/-- Percent-decoding inverts percent-encoding on byte strings. -/
theorem unquote_quote : ∀ (v : List Nat), (∀ b ∈ v, b < 256) →
    unquoteBytes (quoteBytes v) = v
  | [], _ => rfl
  | b :: rest, h => by
    have hb : b < 256 := h b (by simp)
    have ih := unquote_quote rest (fun x hx => h x (List.mem_cons_of_mem b hx))
    show unquoteBytes (quoteByte b ++ quoteBytes rest) = b :: rest
    by_cases hs : isSafeByte b = true
    · rw [show quoteByte b = [b] from by simp [quoteByte, hs]]
      have hb37 : ¬(b = 37) := by
        intro h37
        rw [h37] at hs
        exact absurd hs (by decide)
      show unquoteBytes (b :: quoteBytes rest) = b :: rest
      rw [unquoteBytes.eq_def]
      simp only [if_neg hb37]
      exact congrArg (b :: ·) ih
    · rw [show quoteByte b = [37, hexDigit (b / 16), hexDigit (b % 16)] from by
        simp [quoteByte, hs]]
      show unquoteBytes (37 :: hexDigit (b / 16) :: hexDigit (b % 16) :: quoteBytes rest)
          = b :: rest
      rw [unquoteBytes.eq_def]
      simp only [if_pos rfl, hexDigit_isHex (b / 16) (by omega),
        hexDigit_isHex (b % 16) (by omega), Bool.and_self, if_true]
      rw [hexVal_hexDigit (b / 16) (by omega), hexVal_hexDigit (b % 16) (by omega), ih]
      congr 1
      omega

/-- Percent-decoding fixes a list containing no `%` (37). -/
theorem unquote_id_no37 : ∀ (l : List Nat), (∀ x ∈ l, x ≠ 37) → unquoteBytes l = l
  | [], _ => rfl
  | b :: rest, h => by
    have hb : ¬(b = 37) := h b (by simp)
    rw [unquoteBytes.eq_def]
    simp only [if_neg hb]
    exact congrArg (b :: ·) (unquote_id_no37 rest (fun x hx => h x (List.mem_cons_of_mem b hx)))

/-- Splitting on `&` leaves an `&`-free list whole. -/
theorem splitAmp_no_amp : ∀ (p : List Nat), (∀ x ∈ p, x ≠ 38) → splitAmp p = [p]
  | [], _ => rfl
  | b :: rest, h => by
    have hb : ¬(b = 38) := h b (by simp)
    rw [splitAmp.eq_def]
    simp only [if_neg hb]
    rw [splitAmp_no_amp rest (fun x hx => h x (List.mem_cons_of_mem b hx))]

/-- Splitting on `&` peels off an `&`-free first part. -/
theorem splitAmp_append : ∀ (p t : List Nat), (∀ x ∈ p, x ≠ 38) →
    splitAmp (p ++ 38 :: t) = p :: splitAmp t
  | [], t, _ => by
    show splitAmp (38 :: t) = [] :: splitAmp t
    rw [splitAmp.eq_def]
    simp
  | b :: p, t, h => by
    have hb : ¬(b = 38) := h b (by simp)
    have ih := splitAmp_append p t (fun x hx => h x (List.mem_cons_of_mem b hx))
    show splitAmp (b :: (p ++ 38 :: t)) = (b :: p) :: splitAmp t
    rw [splitAmp.eq_def]
    simp only [if_neg hb]
    rw [ih]

/-- Splitting a `key=value` pair on its first `=` recovers the halves when the
key holds no `=`. -/
theorem splitEq_append : ∀ (k q : List Nat), (∀ x ∈ k, x ≠ 61) →
    splitEq (k ++ 61 :: q) = (k, q)
  | [], q, _ => by
    show splitEq (61 :: q) = ([], q)
    simp [splitEq, List.takeWhile_cons, List.dropWhile_cons]
  | b :: k, q, h => by
    have hb : b ≠ 61 := h b (by simp)
    have hbne : (b != 61) = true := by simpa using hb
    have ih := splitEq_append k q (fun x hx => h x (List.mem_cons_of_mem b hx))
    have ih1 : (k ++ 61 :: q).takeWhile (fun b => b != 61) = k := congrArg Prod.fst ih
    have ih2 : ((k ++ 61 :: q).dropWhile (fun b => b != 61)).drop 1 = q := congrArg Prod.snd ih
    show splitEq (b :: (k ++ 61 :: q)) = (b :: k, q)
    unfold splitEq
    rw [List.takeWhile_cons, List.dropWhile_cons, hbne]
    simp only [if_true]
    exact Prod.ext (congrArg (b :: ·) ih1) ih2

/-- A parameter part `key=value` is never empty. -/
theorem param_part_ne_nil (k v : List Nat) : param_part k v ≠ [] := by
  unfold param_part
  cases k <;> simp

/-- The query string of a non-empty parameter list is non-empty. -/
theorem query_string_ne_nil : ∀ (params : List (List Nat × List Nat)),
    params ≠ [] → query_string params ≠ []
  | [], h => absurd rfl h
  | kv :: rest, _ => by
    unfold query_string
    cases rest with
    | nil => exact param_part_ne_nil kv.1 kv.2
    | cons kv2 rest2 =>
      show param_part kv.1 kv.2 ++ 38 :: joinAmp _ ≠ []
      cases hp : param_part kv.1 kv.2 <;> simp

/-- Decoding recovers a parameter list whose keys avoid `&`, `=` and `%`. -/
theorem decode_query_string : ∀ (params : List (List Nat × List Nat)),
    (∀ kv ∈ params, ∀ x ∈ kv.1, x ≠ 38 ∧ x ≠ 61 ∧ x ≠ 37) →
    (∀ kv ∈ params, ∀ b ∈ kv.2, b < 256) →
    decodeQuery (query_string params) = params
  | [], _, _ => rfl
  | (k, v) :: rest, hk, hv => by
    have hk1 : ∀ x ∈ k, x ≠ 38 ∧ x ≠ 61 ∧ x ≠ 37 := hk (k, v) (by simp)
    have hv1 : ∀ b ∈ v, b < 256 := hv (k, v) (by simp)
    have hpart38 : ∀ x ∈ param_part k v, x ≠ 38 := by
      intro x hx
      rw [show param_part k v = k ++ 61 :: quoteBytes v from rfl] at hx
      rcases List.mem_append.mp hx with hx | hx
      · exact (hk1 x hx).1
      · rcases List.mem_cons.mp hx with rfl | hx
        · decide
        · exact (quoteBytes_ne_sep v hv1 x hx).1
    have hdecode : decodePair (param_part k v) = (k, v) := by
      unfold decodePair
      rw [show param_part k v = k ++ 61 :: quoteBytes v from rfl,
        splitEq_append k (quoteBytes v) (fun x hx => (hk1 x hx).2.1)]
      exact Prod.ext (unquote_id_no37 k (fun x hx => (hk1 x hx).2.2))
        (unquote_quote v hv1)
    cases rest with
    | nil =>
      show decodeQuery (joinAmp [param_part k v]) = [(k, v)]
      rw [show joinAmp [param_part k v] = param_part k v from rfl]
      unfold decodeQuery
      rw [if_neg (param_part_ne_nil k v), splitAmp_no_amp (param_part k v) hpart38]
      simp [hdecode]
    | cons kv2 rest2 =>
      have ih := decode_query_string (kv2 :: rest2)
        (fun kv hkv => hk kv (List.mem_cons_of_mem _ hkv))
        (fun kv hkv => hv kv (List.mem_cons_of_mem _ hkv))
      have hQ : query_string (kv2 :: rest2) ≠ [] :=
        query_string_ne_nil (kv2 :: rest2) (List.cons_ne_nil _ _)
      rw [decodeQuery, if_neg hQ] at ih
      show decodeQuery (joinAmp (param_part k v :: param_part kv2.1 kv2.2 ::
        (rest2.map (fun kv => param_part kv.1 kv.2)))) = (k, v) :: kv2 :: rest2
      rw [show joinAmp (param_part k v :: param_part kv2.1 kv2.2 ::
          (rest2.map (fun kv => param_part kv.1 kv.2)))
          = param_part k v ++ 38 :: query_string (kv2 :: rest2) from rfl]
      unfold decodeQuery
      rw [if_neg (by cases hp : param_part k v <;> simp)]
      rw [splitAmp_append (param_part k v) (query_string (kv2 :: rest2)) hpart38]
      rw [List.map_cons, hdecode, ih]

/-- C2 (counterexample): keys are not percent-encoded, so a key containing a
raw `&` (here the key bytes "a&b" with value "c") breaks the round trip: the
decode procedure yields the pairs ("a", "") and ("b", "c"). -/
theorem build_url_roundtrip_counterexample :
    decodeQuery (query_string [([97, 38, 98], [99])]) = [([97], []), ([98], [99])] ∧
    decodeQuery (query_string [([97, 38, 98], [99])]) ≠ [([97, 38, 98], [99])] := by
  constructor
  · decide
  · decide

/-- C2 (amended): for parameter lists whose keys contain none of the bytes
`&` (38), `=` (61), `%` (37) — keys pass into the URL verbatim — splitting the
query part of the build_url output on `&`, then each pair on its first `=`,
and percent-decoding each component reconstructs exactly the original
key/value pairs in order. -/
theorem build_url_roundtrip (params : List (List Nat × List Nat))
    (hkeys : ∀ kv ∈ params, ∀ x ∈ kv.1, x ≠ 38 ∧ x ≠ 61 ∧ x ≠ 37)
    (hvals : ∀ kv ∈ params, ∀ b ∈ kv.2, b < 256) :
    decodeQuery (query_string params) = params ∧
    ∀ (base endpoint : List Nat),
      build_url base endpoint params = base ++ endpoint ++ 63 :: query_string params :=
  ⟨decode_query_string params hkeys hvals, fun _ _ => rfl⟩

/-- C2 witness: the round trip at the pair ("take", bytes "10=&"), whose value
needs percent-encoding. -/
theorem build_url_roundtrip_witness :
    decodeQuery (query_string [([116, 97, 107, 101], [49, 48, 61, 38])])
      = [([116, 97, 107, 101], [49, 48, 61, 38])] :=
  (build_url_roundtrip [([116, 97, 107, 101], [49, 48, 61, 38])]
    (by decide) (by decide)).1

end Collector
